import Mathlib

/-!
Verification of the schools CLI (`schools.py`).

The file embeds the data transforms of the program: the set-literal codec
used for the `abbreviations`/`alternatives` columns, the `add` append
operation, the `for_database` CSV projection, the `seed` search-document
projection, and the fixed index settings sent by `initialize`.
-/

namespace Schools

/-- One row of the schools CSV store: columns `id`, `name`, `abbreviations`
and `alternatives`, the last two holding the brace-delimited set-literal
encoding as stored text. -/
structure SchoolRow where
  id : String
  name : String
  abbreviations : String
  alternatives : String
deriving Repr, DecidableEq

/-- Comma-join of character lists, mirroring Python's `",".join(...)` and the
comma separator the CSV writer places between fields. -/
def joinComma : List (List Char) → List Char
  | [] => []
  | [v] => v
  | v :: vs => v ++ ',' :: joinComma vs

/-- The `quote` helper inside the `add` command (schools.py line 78):
each value is wrapped in double quotes, the quoted values are joined with
commas, and the whole is wrapped in braces. No escaping is performed. -/
def quote (values : List String) : String :=
  ⟨'{' :: joinComma (values.map fun v => '"' :: v.data ++ ['"']) ++ ['}']⟩

/-- The `add` command (schools.py lines 67-93): builds one new row from a
fresh random id (`str(uuid4())`, passed here as the parameter `newId`), the
given name, and the two `quote`-encoded list fields, and extends the
collected store with that single row (`obj.collect().extend(new)`). -/
def add (store : List SchoolRow) (name : String)
    (abbreviations alternatives : List String) (newId : String) : List SchoolRow :=
  store ++ [⟨newId, name, quote abbreviations, quote alternatives⟩]

/-- Polars `Expr.str.replace(pat, val)` for a single-character literal
pattern: only the first occurrence is replaced (schools.py lines 154-155
use `str.replace`, not `str.replace_all`). -/
def replaceFirst (c d : Char) : List Char → List Char
  | [] => []
  | x :: xs => if x = c then d :: xs else x :: replaceFirst c d xs

/-- The decode preprocessing in `seed` (schools.py lines 152-160): replace
the first opening brace with an opening bracket, then the first closing
brace with a closing bracket, before handing the text to the JSON parser. -/
def braceTransform (s : List Char) : List Char :=
  replaceFirst '}' ']' (replaceFirst '{' '[' s)

/-- Error raised when a stored list field does not parse as a JSON array of
strings (polars raises a ComputeError from `str.json_decode`; the error
carries the malformed text, not the row it came from). -/
structure DecodeError where
  field : String
deriving Repr, DecidableEq

/-- JSON whitespace. -/
def isWs (c : Char) : Bool :=
  c = ' ' || c = '\n' || c = '\t' || c = '\r'

/-- Single-character JSON string escapes. -/
def escMap (c : Char) : Option Char :=
  if c = '"' then some '"'
  else if c = '\\' then some '\\'
  else if c = '/' then some '/'
  else if c = 'n' then some '\n'
  else if c = 't' then some '\t'
  else if c = 'r' then some '\r'
  else if c = 'b' then some (Char.ofNat 8)
  else if c = 'f' then some (Char.ofNat 12)
  else none

/-- Value of one hexadecimal digit, for `\uXXXX` escapes. -/
def hexDigit (c : Char) : Option Nat :=
  if '0' ≤ c ∧ c ≤ '9' then some (c.toNat - '0'.toNat)
  else if 'a' ≤ c ∧ c ≤ 'f' then some (c.toNat - 'a'.toNat + 10)
  else if 'A' ≤ c ∧ c ≤ 'F' then some (c.toNat - 'A'.toNat + 10)
  else none

/-- States of the JSON array-of-strings parser: before the opening bracket,
expecting an element (or, right after the bracket, the closing bracket),
inside a string, right after a backslash, inside a `\uXXXX` escape, after a
completed element, and after the closing bracket. -/
inductive JState where
  | start
  | expectElem (allowEnd : Bool)
  | inStr
  | inEsc
  | inHex (need : Nat) (acc : Nat)
  | afterElem
  | done

/-- Strict parser for a JSON array of strings, modelling polars
`str.json_decode(dtype=pl.List(str))`: exactly one array of string literals,
standard escapes, no raw control characters inside strings, nothing but
whitespace after the closing bracket. `elems` accumulates completed
elements in reverse; `cur` accumulates the current string in reverse. -/
def jsonRun : List Char → JState → List (List Char) → List Char → Option (List (List Char))
  | [], .done, elems, _ => some elems.reverse
  | [], .start, _, _ => none
  | [], .expectElem _, _, _ => none
  | [], .inStr, _, _ => none
  | [], .inEsc, _, _ => none
  | [], .inHex _ _, _, _ => none
  | [], .afterElem, _, _ => none
  | c :: cs, .start, elems, cur =>
    if isWs c then jsonRun cs .start elems cur
    else if c = '[' then jsonRun cs (.expectElem true) elems cur
    else none
  | c :: cs, .expectElem allowEnd, elems, cur =>
    if isWs c then jsonRun cs (.expectElem allowEnd) elems cur
    else if c = '"' then jsonRun cs .inStr elems []
    else if c = ']' then (if allowEnd then jsonRun cs .done elems cur else none)
    else none
  | c :: cs, .inStr, elems, cur =>
    if c = '"' then jsonRun cs .afterElem (cur.reverse :: elems) []
    else if c = '\\' then jsonRun cs .inEsc elems cur
    else if c.toNat < 32 then none
    else jsonRun cs .inStr elems (c :: cur)
  | c :: cs, .inEsc, elems, cur =>
    match escMap c with
    | some d => jsonRun cs .inStr elems (d :: cur)
    | none => if c = 'u' then jsonRun cs (.inHex 4 0) elems cur else none
  | c :: cs, .inHex need acc, elems, cur =>
    match hexDigit c with
    | some d =>
      if need = 1 then jsonRun cs .inStr elems (Char.ofNat (acc * 16 + d) :: cur)
      else jsonRun cs (.inHex (need - 1) (acc * 16 + d)) elems cur
    | none => none
  | c :: cs, .afterElem, elems, cur =>
    if isWs c then jsonRun cs .afterElem elems cur
    else if c = ',' then jsonRun cs (.expectElem false) elems cur
    else if c = ']' then jsonRun cs .done elems cur
    else none
  | c :: cs, .done, elems, cur =>
    if isWs c then jsonRun cs .done elems cur
    else none

/-- Decode of one stored list field, as performed per column inside `seed`
(schools.py lines 152-160): replace the first `\x7b` and the first `\x7d`,
then parse the result as a JSON array of strings; any failure raises a
`DecodeError` carrying the malformed field text. -/
def decode (s : String) : Except DecodeError (List String) :=
  match jsonRun (braceTransform s.data) .start [] [] with
  | some vs => .ok (vs.map fun v => ⟨v⟩)
  | none => .error ⟨s⟩

/-- One document submitted to the search index by `seed`: the `id` column
renamed to `objectID`, the name carried through, and the two list fields
decoded from their set-literal encoding. -/
structure SearchDocument where
  objectID : String
  name : String
  abbreviations : List String
  alternatives : List String
deriving Repr, DecidableEq

/-- Projection of one store row to its search document, following the
`rename` / `with_columns` pipeline of `seed` (schools.py lines 150-161):
decode `abbreviations`, decode `alternatives`, rename `id` to `objectID`. -/
def toDocument (r : SchoolRow) : Except DecodeError SearchDocument :=
  match decode r.abbreviations with
  | .error e => .error e
  | .ok ab =>
    match decode r.alternatives with
    | .error e => .error e
    | .ok al => .ok ⟨r.id, r.name, ab, al⟩

/-- The record batch built by `seed` before any network call: every row is
projected to a document, and the first decode failure aborts the whole
`collect` with that error (schools.py lines 150-164). -/
def seed_records : List SchoolRow → Except DecodeError (List SearchDocument)
  | [] => .ok []
  | r :: rs =>
    match toDocument r with
    | .error e => .error e
    | .ok d =>
      match seed_records rs with
      | .error e => .error e
      | .ok ds => .ok (d :: ds)

/-- The batch actually handed to `index.save_objects` by `seed`: the whole
record list when `collect` succeeded, and nothing at all when it raised
(the `save_objects` call on schools.py line 167 is only reached after the
`collect` on line 162 returned). -/
def seed_submitted (store : List SchoolRow) : List SearchDocument :=
  match seed_records store with
  | .ok docs => docs
  | .error _ => []

/-- The settings object sent by `initialize` (schools.py lines 132-140). -/
structure IndexSettings where
  searchableAttributes : List String
  indexLanguages : List String
  queryLanguages : List String
  hitsPerPage : Nat
  paginationLimitedTo : Nat
deriving Repr, DecidableEq

/-- The fixed settings literal of `initialize` (schools.py lines 132-139). -/
def initialize_settings : IndexSettings :=
  ⟨["name", "abbreviations,alternatives"], ["en"], ["en"], 5, 50⟩

/-- Whether `initialize` blocks on the settings update: schools.py line 140
calls `.wait()` on the response, so the command waits for the service to
confirm the settings were applied. -/
def initialize_waits : Bool := true

/-- Split a character list at commas, keeping empty pieces. -/
def splitComma : List Char → List (List Char)
  | [] => [[]]
  | c :: cs =>
    match splitComma cs with
    | [] => if c = ',' then [[], []] else [[c]]
    | h :: t => if c = ',' then [] :: h :: t else (c :: h) :: t

/-- Priority tier of an attribute under the search service's documented
semantics of `searchableAttributes`: each list entry is one tier, and a
comma-separated entry names several attributes sharing that tier. Returns
the index of the first tier containing the attribute. -/
def searchablePriority (settings : IndexSettings) (attr : String) : Option Nat :=
  settings.searchableAttributes.findIdx?
    (fun entry => attr.data ∈ splitComma entry.data)

/-- Double every double-quote character, the CSV escaping applied inside a
quoted field. -/
def escapeQuotes : List Char → List Char
  | [] => []
  | c :: cs => if c = '"' then '"' :: '"' :: escapeQuotes cs else c :: escapeQuotes cs

/-- One CSV field under `quote_style="always"`: the text, its inner quotes
doubled, wrapped in double quotes unconditionally. -/
def csvField (s : String) : String :=
  ⟨'"' :: escapeQuotes s.data ++ ['"']⟩

/-- One CSV line: the quoted fields joined with commas. -/
def csvLine (fields : List String) : String :=
  ⟨joinComma (fields.map fun f => (csvField f).data)⟩

/-- The `write_csv` helper (schools.py lines 170-174) with
`quote_style="always"`: a header line followed by one line per row, every
field quoted. The destination (named file or standard output) does not
change the emitted lines. -/
def write_csv (header : List String) (rows : List (List String))  : List String :=
  csvLine header :: rows.map csvLine

/-- The column selection of `for_database` (schools.py line 36):
`obj.select("id", "name")`, keeping row order. -/
def for_database (store : List SchoolRow) : List (List String) :=
  store.map fun r => [r.id, r.name]

/-- The full output of the `for_database` command: the two selected columns
serialized by `write_csv` under the always-quote style. -/
def for_database_output (store : List SchoolRow) : List String :=
  write_csv ["id", "name"] (for_database store)

/-- Characters safe for the set-literal codec: no double quote, no comma,
no closing brace, no backslash, no control character. -/
def cleanChar (c : Char) : Prop :=
  c ≠ '"' ∧ c ≠ ',' ∧ c ≠ '}' ∧ c ≠ '\\' ∧ 32 ≤ c.toNat

instance (c : Char) : Decidable (cleanChar c) := by
  unfold cleanChar; infer_instance

instance exceptDecEq {e a : Type} [DecidableEq e] [DecidableEq a] :
    DecidableEq (Except e a) := fun
  | .ok x, .ok y => decidable_of_iff (x = y) (by simp)
  | .ok _, .error _ => isFalse (by simp)
  | .error _, .ok _ => isFalse (by simp)
  | .error x, .error y => decidable_of_iff (x = y) (by simp)

/-! Theorems. -/

/-- Replacing the first occurrence of a character rewrites exactly the first
occurrence: everything before it and everything after it, including any
further occurrences, is left verbatim. -/
theorem replaceFirst_append_of_not_mem (c d : Char) (p q : List Char) (h : c ∉ p) :
    replaceFirst c d (p ++ c :: q) = p ++ d :: q := by
  induction p with
  | nil => simp [replaceFirst]
  | cons x xs ih =>
    simp only [List.mem_cons, not_or] at h
    have hx : x ≠ c := fun hxc => h.1 hxc.symm
    simp [replaceFirst, hx, ih h.2]

/-- C8: encoding the empty list produces exactly the two-character brace
string, and decoding that string produces exactly the empty list. -/
theorem quote_nil_decode_nil :
    quote [] = "\x7b\x7d" ∧ decode "\x7b\x7d" = .ok ([] : List String) := by
  decide

/-- C7: decode fails with a DecodeError exactly when the brace-transformed
field does not parse as a JSON array of strings; the well-formed two-element
example decodes to its two strings, and the input missing its closing brace
fails with a DecodeError. -/
theorem decode_json_array_spec :
    decode "\x7b\"A\",\"B\"\x7d" = .ok ["A", "B"] ∧
    decode "\x7b\"A\"" = .error ⟨"\x7b\"A\""⟩ ∧
    ∀ s : String, decode s = .error ⟨s⟩ ↔
      jsonRun (braceTransform s.data) .start [] [] = none := by
  refine ⟨by decide, by decide, fun s => ?_⟩
  unfold decode
  cases h : jsonRun (braceTransform s.data) .start [] [] <;> simp

/-- C2 counterexample: appending with an empty name does not fail and does
not leave the store unchanged — the `add` command performs no name
validation, so the empty-named row is appended and written like any other. -/
theorem add_empty_name_appends :
    add [] "" [] [] "00000000-0000-4000-8000-000000000000" =
      [⟨"00000000-0000-4000-8000-000000000000", "", "\x7b\x7d", "\x7b\x7d"⟩] := by
  decide

/-- C2 amended: appending with an empty name is not rejected: the code has
no empty-name check and no ValidationError, so the row with the empty name
is appended to the snapshot exactly like any other row. -/
theorem add_empty_name_not_validated (store : List SchoolRow)
    (abbreviations alternatives : List String) (newId : String) :
    add store "" abbreviations alternatives newId =
      store ++ [⟨newId, "", quote abbreviations, quote alternatives⟩] ∧
    (add store "" abbreviations alternatives newId).length = store.length + 1 := by
  exact ⟨rfl, by simp [add]⟩

/-- C3: append keeps every pre-existing row unchanged at its original
position, adds exactly one row, and that new row sits last. -/
theorem add_preserves_rows (store : List SchoolRow) (name : String)
    (abbreviations alternatives : List String) (newId : String) :
    (add store name abbreviations alternatives newId).length = store.length + 1 ∧
    (∀ i, i < store.length →
      (add store name abbreviations alternatives newId)[i]? = store[i]?) ∧
    (add store name abbreviations alternatives newId)[store.length]? =
      some ⟨newId, name, quote abbreviations, quote alternatives⟩ := by
  refine ⟨by simp [add], fun i hi => ?_, ?_⟩
  · simp [add, List.getElem?_append, hi]
  · simp [add]

/-- Witness for C3 at a concrete one-row store. -/
theorem add_preserves_rows_witness :
    (add [⟨"a", "b", "c", "d"⟩] "N" [] [] "u")[0]? =
      [(⟨"a", "b", "c", "d"⟩ : SchoolRow)][0]? :=
  (add_preserves_rows [⟨"a", "b", "c", "d"⟩] "N" [] [] "u").2.1 0 (by decide)

/-- C9: initialize always sends the one fixed settings object: `name` is the
sole first-tier searchable attribute, `abbreviations` and `alternatives`
share the second tier (one comma-joined entry, which the search service
reads as two same-priority attributes), both language lists are English,
5 hits per page, pagination capped at 50, and the command waits for the
service to confirm the settings. -/
theorem initialize_settings_spec :
    initialize_settings =
      ⟨["name", "abbreviations,alternatives"], ["en"], ["en"], 5, 50⟩ ∧
    searchablePriority initialize_settings "name" = some 0 ∧
    searchablePriority initialize_settings "abbreviations" = some 1 ∧
    searchablePriority initialize_settings "alternatives" = some 1 ∧
    initialize_waits = true := by
  decide

/-- C10: the decode step rewrites only the first opening brace and the first
closing brace; every later brace is left in place and reaches the JSON
parser verbatim, so an encoded element containing a closing brace leaves a
stray brace after the array and decoding fails. -/
theorem decode_rewrites_only_first_braces :
    (∀ p q : List Char, '{' ∉ p →
      replaceFirst '{' '[' (p ++ '{' :: q) = p ++ '[' :: q) ∧
    (∀ p q : List Char, '}' ∉ p →
      replaceFirst '}' ']' (p ++ '}' :: q) = p ++ ']' :: q) ∧
    braceTransform (quote ["a\x7db"]).data = "[\"a]b\"\x7d".data ∧
    decode (quote ["a\x7db"]) = .error ⟨quote ["a\x7db"]⟩ := by
  refine ⟨fun p q h => replaceFirst_append_of_not_mem _ _ p q h,
          fun p q h => replaceFirst_append_of_not_mem _ _ p q h, by decide, by decide⟩

/-- Witness for C10 at concrete prefixes and suffixes. -/
theorem decode_rewrites_only_first_braces_witness :
    replaceFirst '{' '[' (['a'] ++ '{' :: ['b']) = ['a'] ++ '[' :: ['b'] ∧
    replaceFirst '}' ']' (['a'] ++ '}' :: ['b']) = ['a'] ++ ']' :: ['b'] :=
  ⟨decode_rewrites_only_first_braces.1 ['a'] ['b'] (by decide),
   decode_rewrites_only_first_braces.2.1 ['a'] ['b'] (by decide)⟩

/-- C4: the database projection emits a quoted header line plus exactly one
line per input row in order, each line carrying exactly the `id` and `name`
fields, and every field is wrapped in double quotes unconditionally. -/
theorem for_database_spec (store : List SchoolRow) :
    (for_database_output store).length = store.length + 1 ∧
    (for_database_output store).head? = some (csvLine ["id", "name"]) ∧
    (∀ i r, store[i]? = some r →
      (for_database_output store)[i + 1]? = some (csvLine [r.id, r.name])) ∧
    (∀ s : String, (csvField s).data = '"' :: escapeQuotes s.data ++ ['"']) := by
  refine ⟨by simp [for_database_output, write_csv, for_database], rfl,
    fun i r hir => ?_, fun s => rfl⟩
  simp [for_database_output, write_csv, for_database, List.getElem?_map, hir]

/-- Witness for C4 at a concrete one-row store. -/
theorem for_database_spec_witness :
    (for_database_output [⟨"1", "Acme", "x", "y"⟩])[0 + 1]? =
      some (csvLine ["1", "Acme"]) :=
  (for_database_spec [⟨"1", "Acme", "x", "y"⟩]).2.2.1 0 ⟨"1", "Acme", "x", "y"⟩ rfl

/-- C5: the search-document projection renames `id` to `objectID`, carries
`name` through unchanged, and replaces the two stored set-literal strings
with their decoded lists. -/
theorem toDocument_spec (r : SchoolRow) (xs ys : List String)
    (hab : decode r.abbreviations = .ok xs) (hal : decode r.alternatives = .ok ys) :
    toDocument r = .ok ⟨r.id, r.name, xs, ys⟩ := by
  unfold toDocument
  rw [hab, hal]

/-- Witness for C5 at the spec's example row. -/
theorem toDocument_spec_witness :
    toDocument ⟨"1", "Acme School", "\x7b\"AS\"\x7d", "\x7b\x7d"⟩ =
      .ok ⟨"1", "Acme School", ["AS"], []⟩ :=
  toDocument_spec ⟨"1", "Acme School", "\x7b\"AS\"\x7d", "\x7b\x7d"⟩ ["AS"] []
    (by decide) (by decide)

/-- The batch construction of `seed` fails whenever any row's projection
fails. -/
theorem seed_records_error_of_mem (store : List SchoolRow) (r : SchoolRow)
    (hmem : r ∈ store) (hr : ∃ e, toDocument r = .error e) :
    ∃ e, seed_records store = .error e := by
  induction store with
  | nil => cases hmem
  | cons s ss ih =>
    rcases List.mem_cons.mp hmem with rfl | hmem'
    · obtain ⟨e, he⟩ := hr
      exact ⟨e, by simp [seed_records, he]⟩
    · cases hs : toDocument s with
      | error e => exact ⟨e, by simp [seed_records, hs]⟩
      | ok d =>
        obtain ⟨e, he⟩ := ih hmem'
        exact ⟨e, by simp [seed_records, hs, he]⟩

/-- C6 counterexample: the decode error produced by `seed` is identical for
two stores that differ only in the failing record's id, so the error cannot
identify the offending record's id — it carries only the malformed field
text. -/
theorem seed_error_identical_across_ids :
    seed_records [⟨"id-A", "N", "bad", "\x7b\x7d"⟩] =
      seed_records [⟨"id-B", "N", "bad", "\x7b\x7d"⟩] ∧
    seed_records [⟨"id-A", "N", "bad", "\x7b\x7d"⟩] = .error ⟨"bad"⟩ := by
  decide

/-- C6 amended: if any record's list field fails to decode, the whole seed
operation aborts with a DecodeError (carrying the malformed field text, not
the record's id) and no documents at all are submitted to the index. -/
theorem seed_aborts_on_decode_failure (store : List SchoolRow) (r : SchoolRow)
    (hmem : r ∈ store)
    (hfail : (∃ e, decode r.abbreviations = .error e) ∨
      (∃ e, decode r.alternatives = .error e)) :
    (∃ e, seed_records store = .error e) ∧ seed_submitted store = [] := by
  have hr : ∃ e, toDocument r = .error e := by
    rcases hfail with ⟨e, he⟩ | ⟨e, he⟩
    · exact ⟨e, by simp [toDocument, he]⟩
    · cases hab : decode r.abbreviations with
      | error e2 => exact ⟨e2, by simp [toDocument, hab]⟩
      | ok ab => exact ⟨e, by simp [toDocument, hab, he]⟩
  obtain ⟨e, he⟩ := seed_records_error_of_mem store r hmem hr
  exact ⟨⟨e, he⟩, by simp [seed_submitted, he]⟩

/-- Witness for the amended C6 at a concrete one-row store. -/
theorem seed_aborts_witness :
    (∃ e, seed_records [⟨"id-C", "N", "bad", "\x7b\x7d"⟩] = .error e) ∧
    seed_submitted [⟨"id-C", "N", "bad", "\x7b\x7d"⟩] = [] :=
  seed_aborts_on_decode_failure _ ⟨"id-C", "N", "bad", "\x7b\x7d"⟩
    (List.mem_singleton.mpr rfl) (.inl ⟨⟨"bad"⟩, by decide⟩)

/-- One small step of the parser: an opening bracket in the start state. -/
theorem jsonRun_start_bracket (cs : List Char) (elems : List (List Char)) (cur : List Char) :
    jsonRun ('[' :: cs) .start elems cur = jsonRun cs (.expectElem true) elems cur := rfl

/-- One small step of the parser: an opening quote where an element is
expected. -/
theorem jsonRun_expect_quote (cs : List Char) (elems : List (List Char)) (b : Bool)
    (cur : List Char) :
    jsonRun ('"' :: cs) (.expectElem b) elems cur = jsonRun cs .inStr elems [] := rfl

/-- One small step of the parser: a closing quote inside a string. -/
theorem jsonRun_inStr_close (cs : List Char) (elems : List (List Char)) (cur : List Char) :
    jsonRun ('"' :: cs) .inStr elems cur =
      jsonRun cs .afterElem (cur.reverse :: elems) [] := rfl

/-- One small step of the parser: a comma after a completed element. -/
theorem jsonRun_afterElem_comma (cs : List Char) (elems : List (List Char)) (cur : List Char) :
    jsonRun (',' :: cs) .afterElem elems cur =
      jsonRun cs (.expectElem false) elems cur := rfl

/-- One small step of the parser: the closing bracket after an element. -/
theorem jsonRun_afterElem_close (cs : List Char) (elems : List (List Char)) (cur : List Char) :
    jsonRun (']' :: cs) .afterElem elems cur = jsonRun cs .done elems cur := rfl

/-- The parser accepts at the end of input in the done state. -/
theorem jsonRun_done_nil (elems : List (List Char)) (cur : List Char) :
    jsonRun [] .done elems cur = some elems.reverse := rfl

/-- Scanning a string body: ordinary characters are accumulated one by one
until the closing quote. -/
theorem jsonRun_inStr_scan (v rest : List Char) (elems : List (List Char)) (cur : List Char)
    (h : ∀ c ∈ v, c ≠ '"' ∧ c ≠ '\\' ∧ 32 ≤ c.toNat) :
    jsonRun (v ++ rest) .inStr elems cur = jsonRun rest .inStr elems (v.reverse ++ cur) := by
  induction v generalizing cur with
  | nil => simp
  | cons c v ih =>
    obtain ⟨h1, h2, h3⟩ := h c (List.mem_cons_self c v)
    have h4 : ¬ c.toNat < 32 := by omega
    rw [List.cons_append]
    show (if c = '"' then jsonRun (v ++ rest) .afterElem (cur.reverse :: elems) []
      else if c = '\\' then jsonRun (v ++ rest) .inEsc elems cur
      else if c.toNat < 32 then none
      else jsonRun (v ++ rest) .inStr elems (c :: cur)) = _
    rw [if_neg h1, if_neg h2, if_neg h4,
      ih (c :: cur) (fun x hx => h x (List.mem_cons_of_mem c hx))]
    simp

/-- The cleanChar bound gives exactly what the string scanner needs. -/
theorem cleanChar_scan {w : String} (hw : ∀ c ∈ w.data, cleanChar c) :
    ∀ c ∈ w.data, c ≠ '"' ∧ c ≠ '\\' ∧ 32 ≤ c.toNat := by
  intro c hc
  obtain ⟨a1, _, _, a4, a5⟩ := hw c hc
  exact ⟨a1, a4, a5⟩

/-- A closing brace never occurs in the joined quoted elements when no
element contains one. -/
theorem not_mem_joinComma_quoted : ∀ vs : List String,
    (∀ v ∈ vs, ∀ c ∈ v.data, c ≠ '}') →
    '}' ∉ joinComma (vs.map fun v => '"' :: (v.data ++ ['"']))
  | [], _ => by simp [joinComma]
  | [v], h => by
    intro hmem
    have hmem' : '}' ∈ '"' :: (v.data ++ ['"']) := hmem
    rcases List.mem_cons.mp hmem' with h1 | h1
    · exact absurd h1 (by decide)
    · rcases List.mem_append.mp h1 with h2 | h2
      · exact h v (List.mem_cons_self _ _) '}' h2 rfl
      · exact absurd (List.mem_singleton.mp h2) (by decide)
  | v :: w :: ws, h => by
    have hrec := not_mem_joinComma_quoted (w :: ws)
      (fun u hu => h u (List.mem_cons_of_mem _ hu))
    intro hmem
    have hmem' : '}' ∈ ('"' :: (v.data ++ ['"'])) ++
        ',' :: joinComma ((w :: ws).map fun u => '"' :: (u.data ++ ['"'])) := hmem
    rcases List.mem_append.mp hmem' with h1 | h1
    · rcases List.mem_cons.mp h1 with h2 | h2
      · exact absurd h2 (by decide)
      · rcases List.mem_append.mp h2 with h3 | h3
        · exact h v (List.mem_cons_self _ _) '}' h3 rfl
        · exact absurd (List.mem_singleton.mp h3) (by decide)
    · rcases List.mem_cons.mp h1 with h2 | h2
      · exact absurd h2 (by decide)
      · exact hrec h2

/-- On an encoded field whose elements contain no closing brace, the brace
transform turns exactly the outer braces into brackets. -/
theorem braceTransform_quote (vs : List String)
    (h : ∀ v ∈ vs, ∀ c ∈ v.data, c ≠ '}') :
    braceTransform (quote vs).data =
      '[' :: (joinComma (vs.map fun v => '"' :: (v.data ++ ['"'])) ++ [']']) := by
  have hnm : '}' ∉ joinComma (vs.map fun v => '"' :: (v.data ++ ['"'])) :=
    not_mem_joinComma_quoted vs h
  show braceTransform
      ('{' :: (joinComma (vs.map fun v => '"' :: (v.data ++ ['"'])) ++ ['}'])) = _
  unfold braceTransform
  rw [show replaceFirst '{' '['
      ('{' :: (joinComma (vs.map fun v => '"' :: (v.data ++ ['"'])) ++ ['}'])) =
      '[' :: (joinComma (vs.map fun v => '"' :: (v.data ++ ['"'])) ++ ['}']) from by
    simp [replaceFirst]]
  have hp : '}' ∉ ('[' :: joinComma (vs.map fun v => '"' :: (v.data ++ ['"']))) := by
    intro hmem
    rcases List.mem_cons.mp hmem with h1 | h1
    · exact absurd h1 (by decide)
    · exact hnm h1
  exact replaceFirst_append_of_not_mem '}' ']'
    ('[' :: joinComma (vs.map fun v => '"' :: (v.data ++ ['"']))) [] hp

/-- Running the parser over the joined quoted clean elements followed by the
closing bracket collects exactly those elements. -/
theorem jsonRun_elements (vs : List String) (v : String) (elems : List (List Char)) (b : Bool)
    (h : ∀ w ∈ v :: vs, ∀ c ∈ w.data, cleanChar c) :
    jsonRun (joinComma ((v :: vs).map fun w => '"' :: (w.data ++ ['"'])) ++ [']'])
      (.expectElem b) elems [] = some (elems.reverse ++ (v :: vs).map String.data) := by
  induction vs generalizing v elems b with
  | nil =>
    have hv := cleanChar_scan (h v (List.mem_cons_self _ _))
    show jsonRun (('"' :: (v.data ++ ['"'])) ++ [']']) (.expectElem b) elems [] = _
    rw [List.cons_append, jsonRun_expect_quote, List.append_assoc,
      List.singleton_append, jsonRun_inStr_scan _ _ _ _ hv, jsonRun_inStr_close,
      jsonRun_afterElem_close, jsonRun_done_nil]
    simp
  | cons w ws ih =>
    have hv := cleanChar_scan (h v (List.mem_cons_self _ _))
    have h' : ∀ u ∈ w :: ws, ∀ c ∈ u.data, cleanChar c :=
      fun u hu => h u (List.mem_cons_of_mem _ hu)
    show jsonRun ((('"' :: (v.data ++ ['"'])) ++
        ',' :: joinComma ((w :: ws).map fun u => '"' :: (u.data ++ ['"']))) ++ [']'])
      (.expectElem b) elems [] = _
    rw [List.cons_append, List.cons_append, jsonRun_expect_quote, List.append_assoc,
      List.append_assoc, List.singleton_append, jsonRun_inStr_scan _ _ _ _ hv,
      jsonRun_inStr_close, List.cons_append, jsonRun_afterElem_comma]
    simp only [List.append_nil, List.reverse_reverse]
    rw [ih w (v.data :: elems) false h']
    simp

/-- Rebuilding strings from their character data is the identity. -/
theorem map_mk_map_data (l : List String) :
    ((l.map String.data).map fun v => (⟨v⟩ : String)) = l := by
  induction l with
  | nil => rfl
  | cons x xs ih =>
    simp only [List.map_cons]
    rw [ih]

/-- C1 amended: decoding the encoding returns the original list for every
list of strings whose characters avoid the double quote, the comma, the
closing brace, the backslash, and the control range. -/
theorem decode_quote_roundtrip (xs : List String)
    (h : ∀ v ∈ xs, ∀ c ∈ v.data, cleanChar c) :
    decode (quote xs) = .ok xs := by
  cases xs with
  | nil => decide
  | cons x xs' =>
    have hnb : ∀ v ∈ x :: xs', ∀ c ∈ v.data, c ≠ '}' :=
      fun v hv c hc => (h v hv c hc).2.2.1
    unfold decode
    rw [braceTransform_quote (x :: xs') hnb, jsonRun_start_bracket,
      jsonRun_elements xs' x [] true h]
    simp only [List.reverse_nil, List.nil_append]
    rw [map_mk_map_data]

/-- Witness for the amended C1 at a concrete two-element list. -/
theorem decode_quote_roundtrip_witness :
    decode (quote ["NYU", "Acme School"]) = .ok ["NYU", "Acme School"] :=
  decode_quote_roundtrip ["NYU", "Acme School"] (by decide)

/-- C1 counterexample: the list whose one element is a single closing brace
contains no double quote and no comma, yet decoding its encoding fails with
a DecodeError instead of returning the list. -/
theorem roundtrip_fails_on_closing_brace :
    (∀ c ∈ "\x7d".data, c ≠ '"' ∧ c ≠ ',') ∧
    decode (quote ["\x7d"]) = .error ⟨quote ["\x7d"]⟩ := by
  decide

end Schools
